import Mathlib

/-!
Verification of the stock-market-simulator repository.

The development shallowly embeds the C++ sources:
  * `src/src/date.cpp` / `src/include/date.hpp` — the `Date` class
    (validity, leap years, increment/decrement, comparison operators);
  * `src/include/present_value.hpp` — the `finance::PresentValue`
    template (`pv_discrete_cflow`, `pv_continuous_cflow`,
    `unique_discrete_irr`, `irr_discrete_cflow`);
  * `src/include/dated.hpp` — the `Dated<T>` container
    (`date_at`, `element_at`, `contains`, `index_of_date`).

C++ `int` fields become `ℤ` (with `Int.tmod` for the truncating `%`);
`double`/`float` values become exact rationals `ℚ`; C++ exceptions become
`Except` errors carrying the thrown message.  The opaque floating-point
library functions `std::pow` and `std::exp` are passed as explicit
function parameters, since none of the claims depend on their values.
-/

/-- Embedded `Date` (fields `day`, `month`, `year` are C++ `int`s,
modelled as `ℤ`; see `src/include/date.hpp`). -/
@[ext]
structure Date where
  day : ℤ
  month : ℤ
  year : ℤ
  deriving DecidableEq, Repr

namespace Date

/-- `MinDay` private constant of the C++ `Date` class. -/
def MinDay : ℤ := 1

/-- `MaxDay` private constant of the C++ `Date` class. -/
def MaxDay : ℤ := 31

/-- `MinMonth` private constant of the C++ `Date` class. -/
def MinMonth : ℤ := 1

/-- `MaxMonth` private constant of the C++ `Date` class. -/
def MaxMonth : ℤ := 12

/-- `MinYear` private constant of the C++ `Date` class. -/
def MinYear : ℤ := 0

/-- The global `MonthLength[13]` array of `date.hpp`:
`{31,31,28,31,30,31,30,31,31,30,31,30,31}` (entry 0 is padding). -/
def MonthLength : List ℤ := [31, 31, 28, 31, 30, 31, 30, 31, 31, 30, 31, 30, 31]

/-- `Date::is_leap_year` from `date.cpp`, line for line:
`year % 4 != 0 → false`, else `year % 100 == 0 → true`,
else `year % 400 != 0 → false`, else `true`.
`Int.tmod` is the truncating remainder of C++ `%`. -/
def is_leap_year (d : Date) : Bool :=
  if d.year.tmod 4 ≠ 0 then false
  else if d.year.tmod 100 = 0 then true
  else if d.year.tmod 400 ≠ 0 then false
  else true

/-- `Date::valid` from `date.cpp`.  The month names come from the
`Months` enum of `date.hpp`, which omits July, so `February = 2`,
`April = 4`, `June = 6`, `September = 8`, `November = 10`. -/
def valid (d : Date) : Bool :=
  if d.year < MinYear then false
  else if d.month > MaxMonth ∨ d.month < MinMonth then false
  else if d.day > MaxDay ∨ d.day < MinDay then false
  else if d.day = MaxDay ∧ (d.month = 2 ∨ d.month = 4 ∨ d.month = 6 ∨
                            d.month = 8 ∨ d.month = 10) then false
  else if d.day = 30 ∧ d.month = 2 then false
  else if (d.day = 29 ∧ d.month = 2) ∧ ¬ d.is_leap_year then false
  else true

/-- `Date::operator++` (pre-increment) from `date.cpp`: `day++`, roll
`day → MinDay`/`month++` when `day > MaxDay`, roll `month → MinMonth`/
`year++` when `month > MaxMonth`.  The post-increment just delegates to
this. -/
def increment (d : Date) : Date :=
  let day := d.day + 1
  if day > MaxDay then
    let month := d.month + 1
    if month > MaxMonth then ⟨MinDay, MinMonth, d.year + 1⟩
    else ⟨MinDay, month, d.year⟩
  else ⟨day, d.month, d.year⟩

/-- `Date::operator--` (pre-decrement) from `date.cpp`: `day--`; when
`day < MinDay`, `day = MonthLength[month-1]`, plus one more day when
`month-1 == Months::February` and `is_leap_year()`, then `month--`,
rolling `month → MaxMonth`/`year--` when `month < MinMonth`. -/
def decrement (d : Date) : Date :=
  let day := d.day - 1
  if day < MinDay then
    let dayL := MonthLength.getD (d.month - 1).toNat 0
    let dayA := if d.month - 1 = 2 ∧ d.is_leap_year then dayL + 1 else dayL
    let month := d.month - 1
    if month < MinMonth then ⟨dayA, MaxMonth, d.year - 1⟩
    else ⟨dayA, month, d.year⟩
  else ⟨day, d.month, d.year⟩

/-- `operator==(const Date&, const Date&)` from `date.cpp`: exact
field-wise comparison. -/
def eqb (l r : Date) : Bool :=
  decide (l.day = r.day ∧ l.month = r.month ∧ l.year = r.year)

/-- `operator!=(const Date&, const Date&)` from `date.cpp`. -/
def neb (l r : Date) : Bool :=
  ! eqb l r

/-- `operator<(const Date&, const Date&)` from `date.cpp`: lexicographic
on `(year, month, day)`. -/
def ltb (l r : Date) : Bool :=
  decide (l.year < r.year ∨
          (l.year = r.year ∧ l.month < r.month) ∨
          (l.year = r.year ∧ l.month = r.month ∧ l.day < r.day))

/-- `operator>(const Date&, const Date&)` from `date.cpp`. -/
def gtb (l r : Date) : Bool :=
  decide (l.year > r.year ∨
          (l.year = r.year ∧ l.month > r.month) ∨
          (l.year = r.year ∧ l.month = r.month ∧ l.day > r.day))

/-- `operator<=(const Date&, const Date&)` from `date.cpp`:
defined as `not (lhs > rhs)`. -/
def leb (l r : Date) : Bool :=
  ! gtb l r

/-- `operator>=(const Date&, const Date&)` from `date.cpp`:
defined as `not (lhs < rhs)`. -/
def geb (l r : Date) : Bool :=
  ! ltb l r

end Date

/-- The Gregorian leap-year rule as the specification states it:
divisible by 4 and (not divisible by 100 or divisible by 400).
Spec-side definition, for comparison with `Date.is_leap_year`. -/
def leap_year_rule_spec (y : ℤ) : Bool :=
  decide (y % 4 = 0 ∧ (¬ y % 100 = 0 ∨ y % 400 = 0))

/-- The actual calendar length of a month as the specification states it:
31 by default, 30 for April/June/September/November, 28/29 for February
per the leap rule.  Spec-side definition. -/
def month_length_spec (m y : ℤ) : ℤ :=
  if m = 4 ∨ m = 6 ∨ m = 9 ∨ m = 11 then 30
  else if m = 2 then (if leap_year_rule_spec y then 29 else 28)
  else 31

/-- Date validity as the specification states it: `year ≥ 0`,
`1 ≤ month ≤ 12`, `1 ≤ day ≤` actual month length.  Spec-side
definition, for comparison with `Date.valid`. -/
def valid_spec (d : Date) : Bool :=
  decide (0 ≤ d.year ∧ 1 ≤ d.month ∧ d.month ≤ 12 ∧ 1 ≤ d.day ∧
          d.day ≤ month_length_spec d.month d.year)

/-- C1: the spec's leap rule says 1900 is not leap and 2024 is leap, but
`Date::is_leap_year` returns `true` for 1900 and `false` for 2024 (its
`% 100` / `% 400` branches are inverted); 2000 and 2023 happen to agree. -/
theorem is_leap_year_diverges_from_spec :
    Date.is_leap_year ⟨1, 1, 1900⟩ = true ∧
    Date.is_leap_year ⟨1, 1, 2024⟩ = false ∧
    Date.is_leap_year ⟨1, 1, 2000⟩ = true ∧
    Date.is_leap_year ⟨1, 1, 2023⟩ = false ∧
    leap_year_rule_spec 1900 = false ∧
    leap_year_rule_spec 2024 = true ∧
    leap_year_rule_spec 2000 = true ∧
    leap_year_rule_spec 2023 = false := by
  decide

/-- C3: `Date::valid` diverges from the spec's month-length rule: it
accepts September 31 and rejects August 31 (the `Months` enum omits
July, shifting September to 8 and November to 10), accepts
February 29, 1900 and rejects February 29, 2024 (inverted leap rule). -/
theorem valid_diverges_from_spec :
    Date.valid ⟨31, 9, 2020⟩ = true ∧ valid_spec ⟨31, 9, 2020⟩ = false ∧
    Date.valid ⟨31, 8, 2020⟩ = false ∧ valid_spec ⟨31, 8, 2020⟩ = true ∧
    Date.valid ⟨31, 11, 2020⟩ = true ∧ valid_spec ⟨31, 11, 2020⟩ = false ∧
    Date.valid ⟨29, 2, 1900⟩ = true ∧ valid_spec ⟨29, 2, 1900⟩ = false ∧
    Date.valid ⟨29, 2, 2024⟩ = false ∧ valid_spec ⟨29, 2, 2024⟩ = true := by
  decide

/-- Characterization of `Date.valid` as a proposition, for use in proofs
about valid dates. -/
lemma valid_iff (d : Date) :
    d.valid = true ↔
      (0 ≤ d.year ∧ 1 ≤ d.month ∧ d.month ≤ 12 ∧ 1 ≤ d.day ∧ d.day ≤ 31 ∧
       ¬(d.day = 31 ∧ (d.month = 2 ∨ d.month = 4 ∨ d.month = 6 ∨
                       d.month = 8 ∨ d.month = 10)) ∧
       ¬(d.day = 30 ∧ d.month = 2) ∧
       ¬(d.day = 29 ∧ d.month = 2 ∧ d.is_leap_year = false)) := by
  unfold Date.valid Date.MinYear Date.MaxMonth Date.MinMonth Date.MaxDay
    Date.MinDay
  split_ifs with h1 h2 h3 h4 h5 h6 <;>
    simp_all <;> omega

/-- C4 counterexample: the claim says incrementing April 30 yields
May 1, but `Date::operator++` only rolls past day 31, so it yields
April 31. -/
theorem increment_april30_counterexample :
    Date.increment ⟨30, 4, 2020⟩ = ⟨31, 4, 2020⟩ ∧
    Date.increment ⟨30, 4, 2020⟩ ≠ ⟨1, 5, 2020⟩ := by
  decide

/-- C4 (amended): for every valid date, the increment operator adds one
to the day, rolling `day → 1`/`month + 1` exactly when the day was 31
(the fixed `MaxDay`, never the per-month length table), and rolling
`month → 1`/`year + 1` exactly when the month was December. -/
theorem increment_rolls_only_past_day31 (d : Date) (h : d.valid = true) :
    Date.increment d =
      (if d.day = 31 then
        (if d.month = 12 then (⟨1, 1, d.year + 1⟩ : Date)
         else ⟨1, d.month + 1, d.year⟩)
       else ⟨d.day + 1, d.month, d.year⟩) := by
  rw [valid_iff] at h
  unfold Date.increment Date.MaxDay Date.MaxMonth Date.MinDay Date.MinMonth
  split_ifs <;> simp_all [Date.ext_iff] <;> omega

/-- Witness for C4's amended theorem at December 31, 2020. -/
theorem increment_rolls_only_past_day31_witness :
    Date.valid ⟨31, 12, 2020⟩ = true ∧
    Date.increment ⟨31, 12, 2020⟩ = ⟨1, 1, 2021⟩ :=
  ⟨by decide, (increment_rolls_only_past_day31 ⟨31, 12, 2020⟩ (by decide)).trans
    (by decide)⟩

/-- C6 counterexample: May 1, 2020 is valid and does not touch the
February boundary, yet decrement followed by increment produces
April 31 (decrement consults `MonthLength`, increment does not). -/
theorem roundtrip_counterexample :
    Date.valid ⟨1, 5, 2020⟩ = true ∧
    Date.increment (Date.decrement ⟨1, 5, 2020⟩) = ⟨31, 4, 2020⟩ ∧
    (⟨31, 4, 2020⟩ : Date) ≠ ⟨1, 5, 2020⟩ := by
  decide

/-- C6 (amended): for every valid date `d`, increment-then-decrement
returns `d` unless `d` is day 31 of month 9 or 11 (dates `valid()`
accepts but whose `MonthLength` entry is 30), and
decrement-then-increment returns `d` unless `d` is day 1 of month
3, 5, 7, 10 or 12 (months preceded by a month of fewer than 31 days in
`MonthLength` — including March in every year, not only leap years). -/
theorem roundtrip_amended (d : Date) (h : d.valid = true) :
    (¬(d.day = 31 ∧ (d.month = 9 ∨ d.month = 11)) →
      Date.decrement (Date.increment d) = d) ∧
    (¬(d.day = 1 ∧ (d.month = 3 ∨ d.month = 5 ∨ d.month = 7 ∨
                    d.month = 10 ∨ d.month = 12)) →
      Date.increment (Date.decrement d) = d) := by
  obtain ⟨dd, mm, yy⟩ := d
  rw [valid_iff] at h
  simp only at h
  obtain ⟨hy, hm1, hm2, hd1, hd2, h31, h30, h29⟩ := h
  constructor
  · intro hex
    simp only at hex
    by_cases hd : dd = 31
    · subst hd
      have hm : mm = 1 ∨ mm = 3 ∨ mm = 5 ∨ mm = 7 ∨ mm = 12 := by omega
      rcases hm with hm | hm | hm | hm | hm <;> subst hm <;>
        simp [Date.increment, Date.decrement, Date.MaxDay, Date.MaxMonth,
          Date.MinDay, Date.MinMonth, Date.MonthLength]
    · have e1 : ¬ (31 : ℤ) < dd + 1 := by omega
      have e2 : ¬ dd + 1 - 1 < (1 : ℤ) := by omega
      simp [Date.increment, Date.decrement, Date.MaxDay, Date.MaxMonth,
        Date.MinDay, Date.MinMonth, e1, e2]
      intro hc
      exact absurd hc (by omega)
  · intro hex
    simp only at hex
    by_cases hd : dd = 1
    · subst hd
      have hm : mm = 1 ∨ mm = 2 ∨ mm = 4 ∨ mm = 6 ∨
          mm = 8 ∨ mm = 9 ∨ mm = 11 := by omega
      rcases hm with hm | hm | hm | hm | hm | hm | hm <;> subst hm <;>
        simp [Date.increment, Date.decrement, Date.MaxDay, Date.MaxMonth,
          Date.MinDay, Date.MinMonth, Date.MonthLength]
    · have e1 : ¬ dd - 1 < (1 : ℤ) := by omega
      have e2 : ¬ (31 : ℤ) < dd - 1 + 1 := by omega
      simp [Date.increment, Date.decrement, Date.MaxDay, Date.MaxMonth,
        Date.MinDay, Date.MinMonth, e1, e2]
      intro hc
      exact absurd hc (by omega)

/-- Witness for C6's amended theorem at June 15, 2021. -/
theorem roundtrip_amended_witness :
    Date.valid ⟨15, 6, 2021⟩ = true ∧
    Date.decrement (Date.increment ⟨15, 6, 2021⟩) = ⟨15, 6, 2021⟩ ∧
    Date.increment (Date.decrement ⟨15, 6, 2021⟩) = ⟨15, 6, 2021⟩ :=
  ⟨by decide,
   (roundtrip_amended ⟨15, 6, 2021⟩ (by decide)).1 (by decide),
   (roundtrip_amended ⟨15, 6, 2021⟩ (by decide)).2 (by decide)⟩

/-- C8: `==` is exact field-wise match, `<` is strict lexicographic
order on `(year, month, day)`, the order is trichotomous, `<=` is
not-greater, `>=` is not-less, and the sample chain of dates is
strictly increasing. -/
theorem date_order_total (d1 d2 : Date) :
    (Date.eqb d1 d2 = true ↔ d1 = d2) ∧
    (Date.ltb d1 d2 = true ↔
      (d1.year < d2.year ∨ (d1.year = d2.year ∧ d1.month < d2.month) ∨
       (d1.year = d2.year ∧ d1.month = d2.month ∧ d1.day < d2.day))) ∧
    ((Date.ltb d1 d2 = true ∧ Date.eqb d1 d2 = false ∧ Date.gtb d1 d2 = false) ∨
     (Date.ltb d1 d2 = false ∧ Date.eqb d1 d2 = true ∧ Date.gtb d1 d2 = false) ∨
     (Date.ltb d1 d2 = false ∧ Date.eqb d1 d2 = false ∧ Date.gtb d1 d2 = true)) ∧
    Date.leb d1 d2 = ! Date.gtb d1 d2 ∧
    Date.geb d1 d2 = ! Date.ltb d1 d2 ∧
    Date.ltb ⟨1, 1, 2020⟩ ⟨2, 1, 2020⟩ = true ∧
    Date.ltb ⟨2, 1, 2020⟩ ⟨1, 2, 2020⟩ = true ∧
    Date.ltb ⟨1, 2, 2020⟩ ⟨1, 1, 2021⟩ = true := by
  refine ⟨?_, ?_, ?_, rfl, rfl, by decide, by decide, by decide⟩
  · simp [Date.eqb, Date.ext_iff]
  · simp [Date.ltb]
  · simp [Date.ltb, Date.eqb, Date.gtb]
    omega

/-- C10: for every valid date, increment produces a strictly later date
and decrement a strictly earlier one under `operator<`, even when the
produced date is itself invalid. -/
theorem increment_strictly_forward (d : Date) (h : d.valid = true) :
    Date.ltb d (Date.increment d) = true ∧
    Date.ltb (Date.decrement d) d = true := by
  obtain ⟨dd, mm, yy⟩ := d
  simp only [Date.increment, Date.decrement, Date.ltb, Date.MaxDay,
    Date.MaxMonth, Date.MinDay, Date.MinMonth]
  constructor <;> split_ifs <;> simp

/-- Witness for C10 at April 30, 2020 (whose increment is the invalid
April 31, still strictly later). -/
theorem increment_strictly_forward_witness :
    Date.valid ⟨30, 4, 2020⟩ = true ∧
    Date.ltb ⟨30, 4, 2020⟩ (Date.increment ⟨30, 4, 2020⟩) = true ∧
    Date.ltb (Date.decrement ⟨30, 4, 2020⟩) ⟨30, 4, 2020⟩ = true :=
  ⟨by decide,
   (increment_strictly_forward ⟨30, 4, 2020⟩ (by decide)).1,
   (increment_strictly_forward ⟨30, 4, 2020⟩ (by decide)).2⟩

namespace finance

/-- `std::signbit` on the exact-rational model of floating values:
true exactly on negatives (rationals have no negative zero). -/
def signbitq (x : ℚ) : Bool :=
  decide (x < 0)

/-- The loop of `PresentValue::pv_discrete_cflow` after `n` iterations:
`present_value += cflow_amounts[t] / pow(1.0 + r, cflow_times[t])` for
`t = 0 .. n-1`.  `powf` stands for `std::pow`; out-of-range reads yield
the junk default 0 (the claims only use equal-length inputs). -/
def pv_discrete_aux (powf : ℚ → ℚ → ℚ) (ts as : List ℚ) (r : ℚ) : ℕ → ℚ
  | 0 => 0
  | t + 1 =>
    pv_discrete_aux powf ts as r t + as.getD t 0 / powf (1 + r) (ts.getD t 0)

/-- `PresentValue::pv_discrete_cflow` from `present_value.hpp`: the loop
runs while `t < cflow_times.size()`. -/
def pv_discrete_cflow (powf : ℚ → ℚ → ℚ) (ts as : List ℚ) (r : ℚ) : ℚ :=
  pv_discrete_aux powf ts as r ts.length

/-- First loop of `PresentValue::unique_discrete_irr` after `n`
iterations: iteration `i` handles `t = i + 1`, comparing
`signbit(cflow_amounts[t-1])` with `signbit(cflow_amounts[t])`. -/
def sign_changes_raw (as : List ℚ) : ℕ → ℕ
  | 0 => 0
  | i + 1 =>
    sign_changes_raw as i +
      (if signbitq (as.getD i 0) != signbitq (as.getD (i + 1) 0) then 1 else 0)

/-- Second loop of `PresentValue::unique_discrete_irr` after `n`
iterations: `A = cflow_amounts[0]` is fixed, `B` accumulates
`B += cflow_amounts[t]`, and the count compares `signbit(A)` with
`signbit(B)` after each addition.  Returns the pair `(B, count)`. -/
def agg_changes (as : List ℚ) (A : ℚ) : ℕ → ℚ × ℕ
  | 0 => (A, 0)
  | i + 1 =>
    let p := agg_changes as A i
    let B := p.1 + as.getD (i + 1) 0
    (B, p.2 + if signbitq A != signbitq B then 1 else 0)

/-- `PresentValue::unique_discrete_irr` from `present_value.hpp`:
count raw sign changes (loop bound `cflow_times.size()`); 0 changes ⇒
`false`, 1 change ⇒ `true`, otherwise recount against the running sums
and return whether that count is at most 1. -/
def unique_discrete_irr (ts as : List ℚ) : Bool :=
  let sc := sign_changes_raw as (ts.length - 1)
  if sc = 0 then false
  else if sc = 1 then true
  else decide ((agg_changes as (as.getD 0 0) (ts.length - 1)).2 ≤ 1)

/-- Claim-side count of sign changes between consecutive elements of a
sequence: the number of positions `i` with `signbit l[i] ≠ signbit
l[i+1]`. -/
def consecutive_sign_changes (l : List ℚ) : ℕ :=
  (List.range (l.length - 1)).countP fun i =>
    signbitq (l.getD i 0) != signbitq (l.getD (i + 1) 0)

/-- Claim-side cumulative-sum sequence: the running totals of the
amounts, starting from `amounts[0]` (entry `k` is
`amounts[0] + ... + amounts[k]`). -/
def cumulative_sums (as : List ℚ) : List ℚ :=
  (List.range as.length).map fun k => (as.take (k + 1)).sum

/-- Count of running totals after the first whose sign bit differs from
that of the first entry of the cumulative-sum sequence (which equals
`amounts[0]`): what the second pass of `unique_discrete_irr` actually
counts. -/
def cumulative_divergences (as : List ℚ) : ℕ :=
  (List.range (as.length - 1)).countP fun t =>
    signbitq ((cumulative_sums as).getD 0 0) !=
      signbitq ((cumulative_sums as).getD (t + 1) 0)

end finance

namespace finance

/-- One-step unfolding of partial sums through `getD` (out-of-range
steps add the junk default 0 and leave the sum unchanged). -/
lemma sum_take_succ_getD (l : List ℚ) (n : ℕ) :
    (l.take (n + 1)).sum = (l.take n).sum + l.getD n 0 := by
  rcases lt_or_ge n l.length with h | h
  · rw [List.sum_take_succ _ _ h]
    simp [List.getD_eq_getElem?_getD, List.getElem?_eq_getElem h]
  · rw [List.take_of_length_le h, List.take_of_length_le (le_trans h (by omega)),
      List.getD_eq_default _ _ h]
    ring

/-- The first pass of `unique_discrete_irr` counts exactly the
consecutive sign-change positions below its iteration bound. -/
lemma sign_changes_raw_eq_countP (as : List ℚ) (n : ℕ) :
    sign_changes_raw as n =
      (List.range n).countP fun i =>
        signbitq (as.getD i 0) != signbitq (as.getD (i + 1) 0) := by
  induction n with
  | zero => rfl
  | succ n ih =>
    rw [List.range_succ, List.countP_append]
    simp only [sign_changes_raw, ih, List.countP_cons, List.countP_nil]
    rcases Bool.eq_false_or_eq_true
        (signbitq (as.getD n 0) != signbitq (as.getD (n + 1) 0)) with h | h <;>
      simp [h]

/-- The running total `B` of the second pass equals the partial sum of
the first `n + 1` amounts. -/
lemma agg_changes_fst (as : List ℚ) (n : ℕ) :
    (agg_changes as (as.getD 0 0) n).1 = (as.take (n + 1)).sum := by
  induction n with
  | zero =>
    simp [agg_changes, sum_take_succ_getD as 0]
  | succ n ih =>
    simp only [agg_changes, ih, sum_take_succ_getD as (n + 1)]

/-- The count of the second pass equals the number of running totals
(after the first) whose sign bit differs from `amounts[0]`. -/
lemma agg_changes_snd (as : List ℚ) (n : ℕ) :
    (agg_changes as (as.getD 0 0) n).2 =
      (List.range n).countP fun i =>
        signbitq (as.getD 0 0) != signbitq ((as.take (i + 2)).sum) := by
  induction n with
  | zero => rfl
  | succ n ih =>
    rw [List.range_succ, List.countP_append]
    simp only [agg_changes, ih, agg_changes_fst, List.countP_cons, List.countP_nil,
      sum_take_succ_getD as (n + 1)]
    rcases Bool.eq_false_or_eq_true
        (signbitq (as.getD 0 0) != signbitq ((as.take (n + 1)).sum + as.getD (n + 1) 0))
        with h | h <;>
      simp [h]

/-- Entry `k` of the cumulative-sum sequence is the partial sum of the
first `k + 1` amounts. -/
lemma cumulative_sums_getD (as : List ℚ) (k : ℕ) (h : k < as.length) :
    (cumulative_sums as).getD k 0 = (as.take (k + 1)).sum := by
  unfold cumulative_sums
  rw [List.getD_eq_getElem?_getD, List.getElem?_map, List.getElem?_range h]
  rfl

/-- C2 counterexample: `times = [0,1,2,3]`, `amounts = [2,-3,-1,1]` has
two raw sign changes, and its cumulative-sum sequence `[2,-1,-2,-1]`
has exactly one sign change between consecutive elements — yet
`unique_discrete_irr` returns `false`, because its second pass compares
every running total against `amounts[0]` (three divergences), not
against the previous running total. -/
theorem unique_discrete_irr_counterexample :
    ([0, 1, 2, 3] : List ℚ).length = ([2, -3, -1, 1] : List ℚ).length ∧
    2 ≤ consecutive_sign_changes [2, -3, -1, 1] ∧
    consecutive_sign_changes (cumulative_sums [2, -3, -1, 1]) ≤ 1 ∧
    unique_discrete_irr [0, 1, 2, 3] [2, -3, -1, 1] = false := by
  refine ⟨rfl, ?_, ?_, ?_⟩ <;>
    norm_num [consecutive_sign_changes, cumulative_sums, unique_discrete_irr,
      sign_changes_raw, agg_changes, signbitq, List.getD, List.range_succ]

/-- C2 (amended): for equal-length inputs, `unique_discrete_irr`
returns `false` on zero raw sign changes and `true` on exactly one; with
more than one it returns `true` iff at most one entry of the
cumulative-sum sequence after the first differs in sign bit from the
first entry (equivalently from `amounts[0]`) — each running total is
compared against the first amount, not against its predecessor. -/
theorem unique_discrete_irr_characterization (ts as : List ℚ)
    (h : ts.length = as.length) :
    (consecutive_sign_changes as = 0 → unique_discrete_irr ts as = false) ∧
    (consecutive_sign_changes as = 1 → unique_discrete_irr ts as = true) ∧
    (2 ≤ consecutive_sign_changes as →
      (unique_discrete_irr ts as = true ↔ cumulative_divergences as ≤ 1)) := by
  have hraw : sign_changes_raw as (ts.length - 1) = consecutive_sign_changes as := by
    rw [sign_changes_raw_eq_countP, consecutive_sign_changes, h]
  have hagg : (agg_changes as (as.getD 0 0) (ts.length - 1)).2 =
      cumulative_divergences as := by
    rw [agg_changes_snd, cumulative_divergences, h]
    apply List.countP_congr
    intro i hi
    have hi2 : i < as.length - 1 := by simpa using hi
    have h1 : (0 : ℕ) < as.length := by omega
    have h2 : i + 1 < as.length := by omega
    rw [cumulative_sums_getD as 0 h1, cumulative_sums_getD as (i + 1) h2]
    have : (as.take 1).sum = as.getD 0 0 := by
      have := sum_take_succ_getD as 0
      simpa using this
    rw [this]
  refine ⟨?_, ?_, ?_⟩
  · intro h0
    rw [unique_discrete_irr, hraw, h0]
    simp
  · intro h1
    rw [unique_discrete_irr, hraw, h1]
    simp
  · intro h2
    rw [unique_discrete_irr, hraw, hagg]
    have hne0 : ¬ consecutive_sign_changes as = 0 := by omega
    have hne1 : ¬ consecutive_sign_changes as = 1 := by omega
    simp [hne0, hne1]

/-- Witness for C2's amended theorem on the spec's own example
`[-100, 50, 50, 50]` (one raw sign change). -/
theorem unique_discrete_irr_characterization_witness :
    ([0, 1, 2, 3] : List ℚ).length = ([-100, 50, 50, 50] : List ℚ).length ∧
    unique_discrete_irr [0, 1, 2, 3] [-100, 50, 50, 50] = true :=
  ⟨rfl, (unique_discrete_irr_characterization [0, 1, 2, 3] [-100, 50, 50, 50]
    rfl).2.1 (by decide)⟩

end finance

namespace finance

/-- The `ACCURACY` constant of `irr_discrete_cflow` (`1.0e-5`). -/
def ACCURACY : ℚ := 1 / 100000

/-- The `MAX_ITERATIONS` constant of `irr_discrete_cflow` (50). -/
def MAX_ITERATIONS : ℕ := 50

/-- The exceptions `irr_discrete_cflow` can throw
(`std::invalid_argument` and `std::domain_error`, with their message). -/
inductive FinanceError where
  | invalidArgument (msg : String)
  | domainError (msg : String)
  deriving DecidableEq, Repr

/-- The bracket-search loop of `irr_discrete_cflow`: while fuel remains
and `f1*f2 >= 0`, move the endpoint with the smaller `fabs` by
`1.6` times the gap (`x1 += 1.6*(x1-x2)` resp. `x2 += 1.6*(x2-x1)`)
and re-evaluate `pv_discrete_cflow` there.  State is `(x1, x2, f1, f2)`. -/
def bracket (powf : ℚ → ℚ → ℚ) (ts as : List ℚ) :
    ℕ → ℚ × ℚ × ℚ × ℚ → ℚ × ℚ × ℚ × ℚ
  | 0, s => s
  | n + 1, (x1, x2, f1, f2) =>
    if 0 ≤ f1 * f2 then
      (if |f1| < |f2| then
        bracket powf ts as n
          (x1 + 8/5 * (x1 - x2), x2,
           pv_discrete_cflow powf ts as (x1 + 8/5 * (x1 - x2)), f2)
      else
        bracket powf ts as n
          (x1, x2 + 8/5 * (x2 - x1), f1,
           pv_discrete_cflow powf ts as (x2 + 8/5 * (x2 - x1))))
    else (x1, x2, f1, f2)

/-- The bracket state after the search of `irr_discrete_cflow`, starting
from `x1 = 0.0`, `x2 = 0.2` with `MAX_ITERATIONS` fuel. -/
def bracket_final (powf : ℚ → ℚ → ℚ) (ts as : List ℚ) : ℚ × ℚ × ℚ × ℚ :=
  bracket powf ts as MAX_ITERATIONS
    (0, 1/5, pv_discrete_cflow powf ts as 0, pv_discrete_cflow powf ts as (1/5))

/-- The bisection loop of `irr_discrete_cflow`: each iteration halves
`dx`, evaluates `f_mid` at `x_mid = rtb + dx`, moves `rtb` to `x_mid`
when `f_mid <= 0`, and returns `x_mid` when `fabs(f_mid) < ACCURACY` or
`fabs(dx) < ACCURACY`; exhausting the fuel throws
`std::domain_error("Solution not found")`. -/
def bisect (powf : ℚ → ℚ → ℚ) (ts as : List ℚ) :
    ℕ → ℚ → ℚ → Except FinanceError ℚ
  | 0, _, _ => .error (.domainError "Solution not found")
  | n + 1, rtb, dx =>
    if |pv_discrete_cflow powf ts as (rtb + dx / 2)| < ACCURACY ∨
       |dx / 2| < ACCURACY then
      .ok (rtb + dx / 2)
    else
      bisect powf ts as n
        (if pv_discrete_cflow powf ts as (rtb + dx / 2) ≤ 0 then rtb + dx / 2
         else rtb)
        (dx / 2)

/-- The initial `(rtb, dx)` of the bisection: re-evaluate `f` at `x1`;
if `f < 0.0` then `rtb = x1, dx = x2-x1`, else `rtb = x2, dx = x1-x2`. -/
def bisect_init (powf : ℚ → ℚ → ℚ) (ts as : List ℚ) : ℚ × ℚ :=
  if pv_discrete_cflow powf ts as (bracket_final powf ts as).1 < 0 then
    ((bracket_final powf ts as).1,
     (bracket_final powf ts as).2.1 - (bracket_final powf ts as).1)
  else
    ((bracket_final powf ts as).2.1,
     (bracket_final powf ts as).1 - (bracket_final powf ts as).2.1)

/-- `PresentValue::irr_discrete_cflow` from `present_value.hpp`: throw
`std::invalid_argument("sizes differ")` on unequal sizes; bracket-search
from `x1 = 0.0, x2 = 0.2`; throw
`std::domain_error("f1 & f2 are wrong")` when `f1*f2 > 0.0` afterwards;
otherwise run the bisection. -/
def irr_discrete_cflow (powf : ℚ → ℚ → ℚ) (ts as : List ℚ) :
    Except FinanceError ℚ :=
  if ts.length ≠ as.length then .error (.invalidArgument "sizes differ")
  else if 0 < (bracket_final powf ts as).2.2.1 *
      (bracket_final powf ts as).2.2.2 then
    .error (.domainError "f1 & f2 are wrong")
  else
    bisect powf ts as MAX_ITERATIONS (bisect_init powf ts as).1
      (bisect_init powf ts as).2

/-- One bisection iteration as a state transformer on `(rtb, dx)`, for
stating what the loop visits. -/
def bisect_iter (f : ℚ → ℚ) (s : ℚ × ℚ) : ℚ × ℚ :=
  (if f (s.1 + s.2 / 2) ≤ 0 then s.1 + s.2 / 2 else s.1, s.2 / 2)

/-- The convergence test of one bisection iteration on state
`(rtb, dx)`: `fabs(f(x_mid)) < ACCURACY` or `fabs(dx') < ACCURACY` with
`dx' = dx/2`, `x_mid = rtb + dx'`. -/
def tolerance_met (f : ℚ → ℚ) (s : ℚ × ℚ) : Prop :=
  |f (s.1 + s.2 / 2)| < ACCURACY ∨ |s.2 / 2| < ACCURACY

/-- A concrete stand-in for `std::pow`, used to instantiate closed
statements (their truth does not depend on the choice). -/
def const_pow : ℚ → ℚ → ℚ := fun _ _ => 1

/-- The bisection exhausts its fuel (throwing
`"Solution not found"`) exactly when no iteration meets the
convergence test. -/
lemma bisect_error_iff (powf : ℚ → ℚ → ℚ) (ts as : List ℚ) (n : ℕ)
    (rtb dx : ℚ) :
    bisect powf ts as n rtb dx = .error (.domainError "Solution not found") ↔
      ∀ i < n, ¬ tolerance_met (pv_discrete_cflow powf ts as)
        ((bisect_iter (pv_discrete_cflow powf ts as))^[i] (rtb, dx)) := by
  induction n generalizing rtb dx with
  | zero => simp [bisect]
  | succ n ih =>
    have hstep : bisect_iter (pv_discrete_cflow powf ts as) (rtb, dx) =
        (if pv_discrete_cflow powf ts as (rtb + dx / 2) ≤ 0 then rtb + dx / 2
         else rtb, dx / 2) := rfl
    by_cases htol : |pv_discrete_cflow powf ts as (rtb + dx / 2)| < ACCURACY ∨
        |dx / 2| < ACCURACY
    · rw [bisect, if_pos htol]
      constructor
      · intro hc
        exact absurd hc (by simp)
      · intro hall
        exact absurd htol (by simpa [tolerance_met] using hall 0 (by omega))
    · rw [bisect, if_neg htol, ih]
      constructor
      · intro hall i hi
        cases i with
        | zero => simpa [tolerance_met] using htol
        | succ j =>
          rw [Function.iterate_succ_apply, hstep]
          exact hall j (by omega)
      · intro hall i hi
        have h2 := hall (i + 1) (by omega)
        rwa [Function.iterate_succ_apply, hstep] at h2
  
/-- The bisection either exhausts its fuel or returns a midpoint. -/
lemma bisect_ok_or (powf : ℚ → ℚ → ℚ) (ts as : List ℚ) (n : ℕ)
    (rtb dx : ℚ) :
    bisect powf ts as n rtb dx = .error (.domainError "Solution not found") ∨
      ∃ v, bisect powf ts as n rtb dx = .ok v := by
  induction n generalizing rtb dx with
  | zero => exact Or.inl rfl
  | succ n ih =>
    by_cases htol : |pv_discrete_cflow powf ts as (rtb + dx / 2)| < ACCURACY ∨
        |dx / 2| < ACCURACY
    · rw [bisect, if_pos htol]
      exact Or.inr ⟨_, rfl⟩
    · rw [bisect, if_neg htol]
      exact ih _ _

end finance

namespace finance

/-- On empty cash flows every `pv_discrete_cflow` value is 0, so the
bracket search only moves `x2` and both function values stay 0. -/
lemma bracket_empty (n : ℕ) (x1 : ℚ) :
    ∀ x2 : ℚ, ∃ x2' : ℚ,
      bracket const_pow [] [] n (x1, x2, 0, 0) = (x1, x2', 0, 0) := by
  induction n with
  | zero => exact fun x2 => ⟨x2, rfl⟩
  | succ n ih =>
    intro x2
    rw [bracket, if_pos (by norm_num), if_neg (by norm_num)]
    exact ih (x2 + 8 / 5 * (x2 - x1))

/-- C5 counterexample: on empty (equal-size) cash flows the present
value is identically 0, so the product `f1*f2` is 0 at every step and
no sign-changing bracket is ever found — yet `irr_discrete_cflow`
returns a value instead of throwing `DomainError`, because the code
only throws when the final product is strictly positive. -/
theorem irr_zero_cashflow_counterexample :
    ([] : List ℚ).length = ([] : List ℚ).length ∧
    (fun r => pv_discrete_cflow const_pow [] [] r) = (fun _ => (0 : ℚ)) ∧
    (bracket_final const_pow [] []).2.2.1 *
      (bracket_final const_pow [] []).2.2.2 = 0 ∧
    (irr_discrete_cflow const_pow [] []).isOk = true := by
  obtain ⟨x2', hx⟩ := bracket_empty MAX_ITERATIONS 0 (1 / 5)
  have hbf : bracket_final const_pow [] [] = (0, x2', 0, 0) := hx
  refine ⟨rfl, rfl, by rw [hbf]; norm_num, ?_⟩
  have hpv : ∀ r, pv_discrete_cflow const_pow [] [] r = 0 := fun _ => rfl
  rw [irr_discrete_cflow, if_neg (by simp), hbf]
  rw [if_neg (by norm_num)]
  rw [bisect_init, hbf, hpv, if_neg (by norm_num)]
  rw [show MAX_ITERATIONS = 49 + 1 from rfl, bisect,
    if_pos (by rw [hpv]; norm_num [ACCURACY])]
  rfl

/-- C5 (amended): `irr_discrete_cflow` throws `InvalidArgument
("sizes differ")` exactly on unequal sizes; given equal sizes it throws
`DomainError("f1 & f2 are wrong")` exactly when the product `f1*f2` is
*strictly positive* after the up-to-50-step bracket expansion (a final
product of exactly zero proceeds to bisection instead of throwing), and
`DomainError("Solution not found")` exactly when that product is not
positive and none of the 50 bisection iterations meets
`|f(x_mid)| < 1e-5` or `|dx| < 1e-5`; in every other case it returns a
value. -/
theorem irr_discrete_cflow_error_characterization (powf : ℚ → ℚ → ℚ)
    (ts as : List ℚ) :
    (irr_discrete_cflow powf ts as = .error (.invalidArgument "sizes differ") ↔
      ts.length ≠ as.length) ∧
    (irr_discrete_cflow powf ts as = .error (.domainError "f1 & f2 are wrong") ↔
      (ts.length = as.length ∧
       0 < (bracket_final powf ts as).2.2.1 * (bracket_final powf ts as).2.2.2)) ∧
    (irr_discrete_cflow powf ts as = .error (.domainError "Solution not found") ↔
      (ts.length = as.length ∧
       ¬ 0 < (bracket_final powf ts as).2.2.1 * (bracket_final powf ts as).2.2.2 ∧
       ∀ i < MAX_ITERATIONS, ¬ tolerance_met (pv_discrete_cflow powf ts as)
         ((bisect_iter (pv_discrete_cflow powf ts as))^[i]
           (bisect_init powf ts as)))) ∧
    ((∃ v, irr_discrete_cflow powf ts as = .ok v) ↔
      (ts.length = as.length ∧
       ¬ 0 < (bracket_final powf ts as).2.2.1 * (bracket_final powf ts as).2.2.2 ∧
       ¬ ∀ i < MAX_ITERATIONS, ¬ tolerance_met (pv_discrete_cflow powf ts as)
         ((bisect_iter (pv_discrete_cflow powf ts as))^[i]
           (bisect_init powf ts as)))) := by
  by_cases hlen : ts.length = as.length
  · rw [irr_discrete_cflow, if_neg (not_not_intro hlen)]
    by_cases hpos : 0 < (bracket_final powf ts as).2.2.1 *
        (bracket_final powf ts as).2.2.2
    · rw [if_pos hpos]
      refine ⟨iff_of_false (by simp) (not_not_intro hlen),
        iff_of_true rfl ⟨hlen, hpos⟩, ?_, iff_of_false (by simp)
          (fun hc => hc.2.1 hpos)⟩
      refine iff_of_false (fun hc => ?_) (fun hc => hc.2.1 hpos)
      simp only [Except.error.injEq, FinanceError.domainError.injEq] at hc
      exact absurd hc (by decide)
    · rw [if_neg hpos]
      have hbi := bisect_error_iff powf ts as MAX_ITERATIONS
        (bisect_init powf ts as).1 (bisect_init powf ts as).2
      rcases bisect_ok_or powf ts as MAX_ITERATIONS
          (bisect_init powf ts as).1 (bisect_init powf ts as).2 with herr | ⟨v, hok⟩
      · have hfail := hbi.mp herr
        rw [herr]
        refine ⟨iff_of_false (by simp) (not_not_intro hlen), ?_,
          iff_of_true rfl ⟨hlen, hpos, hfail⟩,
          iff_of_false (by simp) (fun hc => hc.2.2 hfail)⟩
        refine iff_of_false (fun hc => ?_) (fun hc => hpos hc.2)
        simp only [Except.error.injEq, FinanceError.domainError.injEq] at hc
        exact absurd hc (by decide)
      · have hnot : ¬ ∀ i < MAX_ITERATIONS,
            ¬ tolerance_met (pv_discrete_cflow powf ts as)
              ((bisect_iter (pv_discrete_cflow powf ts as))^[i]
                (bisect_init powf ts as)) := by
          intro hall
          have hth := hbi.mpr hall
          rw [hok] at hth
          exact absurd hth (by simp)
        rw [hok]
        exact ⟨iff_of_false (by simp) (not_not_intro hlen),
          iff_of_false (by simp) (fun hc => hpos hc.2),
          iff_of_false (by simp) (fun hc => hnot hc.2.2),
          iff_of_true ⟨v, rfl⟩ ⟨hlen, hpos, hnot⟩⟩
  · rw [irr_discrete_cflow, if_pos hlen]
    exact ⟨iff_of_true rfl hlen,
      iff_of_false (by simp) (fun hc => hlen hc.1),
      iff_of_false (by simp) (fun hc => hlen hc.1),
      iff_of_false (by simp) (fun hc => hlen hc.1)⟩

end finance

namespace finance

/-- Total embedding of the `pv_discrete_cflow` loop: vector accesses go
through `getElem?`, so an out-of-bounds read yields `none` instead of
undefined behaviour. -/
def pv_discrete_aux_total (powf : ℚ → ℚ → ℚ) (ts as : List ℚ) (r : ℚ) :
    ℕ → Option ℚ
  | 0 => some 0
  | t + 1 => do
    let acc ← pv_discrete_aux_total powf ts as r t
    let a ← as[t]?
    let tm ← ts[t]?
    pure (acc + a / powf (1 + r) tm)

/-- Total embedding of `PresentValue::pv_discrete_cflow` (loop bound
`cflow_times.size()`). -/
def pv_discrete_cflow_total (powf : ℚ → ℚ → ℚ) (ts as : List ℚ) (r : ℚ) :
    Option ℚ :=
  pv_discrete_aux_total powf ts as r ts.length

/-- Total embedding of the `pv_continuous_cflow` loop
(`present_value += cflow_amounts[t] * exp(-r * cflow_times[t])`);
`expf` stands for `std::exp`. -/
def pv_continuous_aux_total (expf : ℚ → ℚ) (ts as : List ℚ) (r : ℚ) :
    ℕ → Option ℚ
  | 0 => some 0
  | t + 1 => do
    let acc ← pv_continuous_aux_total expf ts as r t
    let a ← as[t]?
    let tm ← ts[t]?
    pure (acc + a * expf (-r * tm))

/-- Total embedding of `PresentValue::pv_continuous_cflow` (loop bound
`cflow_times.size()`). -/
def pv_continuous_cflow_total (expf : ℚ → ℚ) (ts as : List ℚ) (r : ℚ) :
    Option ℚ :=
  pv_continuous_aux_total expf ts as r ts.length

/-- Total embedding of the first `unique_discrete_irr` loop: iteration
`i` handles `t = i + 1`, reading `cflow_amounts[t-1]` and
`cflow_amounts[t]`. -/
def sign_changes_raw_total (as : List ℚ) : ℕ → Option ℕ
  | 0 => some 0
  | i + 1 => do
    let c ← sign_changes_raw_total as i
    let p ← as[i]?
    let q ← as[i + 1]?
    pure (c + if signbitq p != signbitq q then 1 else 0)

/-- Total embedding of the second `unique_discrete_irr` loop. -/
def agg_changes_total (as : List ℚ) (A : ℚ) : ℕ → Option (ℚ × ℕ)
  | 0 => some (A, 0)
  | i + 1 => do
    let p ← agg_changes_total as A i
    let a ← as[i + 1]?
    pure (p.1 + a, p.2 + if signbitq A != signbitq (p.1 + a) then 1 else 0)

/-- Total embedding of `PresentValue::unique_discrete_irr`, including
the `cflow_amounts[0]` read that starts the second pass. -/
def unique_discrete_irr_total (ts as : List ℚ) : Option Bool := do
  let sc ← sign_changes_raw_total as (ts.length - 1)
  if sc = 0 then pure false
  else if sc = 1 then pure true
  else do
    let A ← as[0]?
    let p ← agg_changes_total as A (ts.length - 1)
    pure (decide (p.2 ≤ 1))

/-- All accesses of the `pv_discrete_cflow` loop are in bounds when the
iteration count is within both lengths. -/
lemma pv_discrete_aux_total_isSome (powf : ℚ → ℚ → ℚ) (ts as : List ℚ)
    (r : ℚ) (n : ℕ) (h1 : n ≤ ts.length) (h2 : n ≤ as.length) :
    (pv_discrete_aux_total powf ts as r n).isSome = true := by
  induction n with
  | zero => rfl
  | succ n ih =>
    obtain ⟨acc, hacc⟩ := Option.isSome_iff_exists.mp (ih (by omega) (by omega))
    rw [pv_discrete_aux_total, hacc]
    rw [List.getElem?_eq_getElem (show n < as.length by omega),
      List.getElem?_eq_getElem (show n < ts.length by omega)]
    rfl

/-- All accesses of the `pv_continuous_cflow` loop are in bounds when
the iteration count is within both lengths. -/
lemma pv_continuous_aux_total_isSome (expf : ℚ → ℚ) (ts as : List ℚ)
    (r : ℚ) (n : ℕ) (h1 : n ≤ ts.length) (h2 : n ≤ as.length) :
    (pv_continuous_aux_total expf ts as r n).isSome = true := by
  induction n with
  | zero => rfl
  | succ n ih =>
    obtain ⟨acc, hacc⟩ := Option.isSome_iff_exists.mp (ih (by omega) (by omega))
    rw [pv_continuous_aux_total, hacc]
    rw [List.getElem?_eq_getElem (show n < as.length by omega),
      List.getElem?_eq_getElem (show n < ts.length by omega)]
    rfl

/-- All accesses of the first `unique_discrete_irr` loop are in bounds
when the iteration count stays below the amounts length. -/
lemma sign_changes_raw_total_isSome (as : List ℚ) (n : ℕ)
    (h : n < as.length) :
    (sign_changes_raw_total as n).isSome = true := by
  induction n with
  | zero => rfl
  | succ n ih =>
    obtain ⟨c, hc⟩ := Option.isSome_iff_exists.mp (ih (by omega))
    rw [sign_changes_raw_total, hc]
    rw [List.getElem?_eq_getElem (show n < as.length by omega),
      List.getElem?_eq_getElem (show n + 1 < as.length by omega)]
    rfl

/-- The first pass counts at most one change per iteration. -/
lemma sign_changes_raw_total_le (as : List ℚ) (n : ℕ) (c : ℕ)
    (h : sign_changes_raw_total as n = some c) : c ≤ n := by
  induction n generalizing c with
  | zero =>
    simp only [sign_changes_raw_total, Option.some.injEq] at h
    omega
  | succ n ih =>
    rw [sign_changes_raw_total] at h
    rcases hprev : sign_changes_raw_total as n with _ | c0
    · rw [hprev] at h
      exact absurd h (by simp)
    · rw [hprev] at h
      rcases hp : as[n]? with _ | p <;> rw [hp] at h
      · exact absurd h (by simp)
      rcases hq : as[n + 1]? with _ | q <;> rw [hq] at h
      · exact absurd h (by simp)
      simp at h
      have := ih c0 hprev
      split_ifs at h <;> omega

/-- All accesses of the second `unique_discrete_irr` loop are in bounds
when the iteration count stays below the amounts length. -/
lemma agg_changes_total_isSome (as : List ℚ) (A : ℚ) (n : ℕ)
    (h : n < as.length) :
    (agg_changes_total as A n).isSome = true := by
  induction n with
  | zero => rfl
  | succ n ih =>
    obtain ⟨p, hp⟩ := Option.isSome_iff_exists.mp (ih (by omega))
    rw [agg_changes_total, hp]
    rw [List.getElem?_eq_getElem (show n + 1 < as.length by omega)]
    rfl

end finance

namespace finance

/-- C9: with equal-length inputs, every vector access in
`pv_discrete_cflow`, `pv_continuous_cflow` and `unique_discrete_irr` is
in bounds: the total embeddings (whose out-of-bounds branch is `none`)
always return a value, for any model of `std::pow` / `std::exp` and any
rate. -/
theorem accesses_in_bounds (powf : ℚ → ℚ → ℚ) (expf : ℚ → ℚ)
    (ts as : List ℚ) (r : ℚ) (h : ts.length = as.length) :
    (pv_discrete_cflow_total powf ts as r).isSome = true ∧
    (pv_continuous_cflow_total expf ts as r).isSome = true ∧
    (unique_discrete_irr_total ts as).isSome = true := by
  refine ⟨pv_discrete_aux_total_isSome powf ts as r ts.length le_rfl (by omega),
    pv_continuous_aux_total_isSome expf ts as r ts.length le_rfl (by omega), ?_⟩
  rcases Nat.eq_zero_or_pos ts.length with h0 | hpos0
  · simp [unique_discrete_irr_total, h0, sign_changes_raw_total]
  · have hlt : ts.length - 1 < as.length := by omega
    obtain ⟨sc, hsc⟩ := Option.isSome_iff_exists.mp
      (sign_changes_raw_total_isSome as (ts.length - 1) hlt)
    rw [unique_discrete_irr_total, hsc]
    by_cases hsc0 : sc = 0
    · simp [hsc0]
    by_cases hsc1 : sc = 1
    · simp [hsc0, hsc1]
    · have hle := sign_changes_raw_total_le as _ _ hsc
      have h0lt : 0 < as.length := by omega
      rw [List.getElem?_eq_getElem h0lt]
      obtain ⟨pr, hpr⟩ := Option.isSome_iff_exists.mp
        (agg_changes_total_isSome as (as[0]) (ts.length - 1) hlt)
      simp [hsc0, hsc1, hpr]

/-- Witness for C9 on the cash flow of `main.cpp`
(`times = [0,1,2]`, `amounts = [-100,10,110]`). -/
theorem accesses_in_bounds_witness :
    ([0, 1, 2] : List ℚ).length = ([-100, 10, 110] : List ℚ).length ∧
    ((pv_discrete_cflow_total const_pow [0, 1, 2] [-100, 10, 110]
        (1 / 20)).isSome = true ∧
     (pv_continuous_cflow_total (fun x => x) [0, 1, 2] [-100, 10, 110]
        (1 / 20)).isSome = true ∧
     (unique_discrete_irr_total [0, 1, 2] [-100, 10, 110]).isSome = true) :=
  ⟨rfl, accesses_in_bounds const_pow (fun x => x) [0, 1, 2] [-100, 10, 110]
    (1 / 20) rfl⟩

end finance

/-- The exceptions the `Dated<T>` accessors can throw
(`std::out_of_range` and `std::invalid_argument`, with their message). -/
inductive DatedError where
  | outOfRange (msg : String)
  | invalidArgument (msg : String)
  deriving DecidableEq, Repr

/-- Embedded `Dated<T>` container from `dated.hpp`: a vector of dates
and a parallel vector of payloads. -/
structure Dated (T : Type) where
  dates : List Date
  elements : List T

namespace Dated

variable {T : Type}

/-- `Dated<T>::size`: the number of stored dates, as a C++ `int`. -/
def size (c : Dated T) : ℤ :=
  c.dates.length

/-- `Dated<T>::date_at(int)`: throws `std::out_of_range` when `t < 0 or
t >= size()`, else returns `dates[t]` (in-range, so the `getD` default
`Date()` is never used). -/
def date_at (c : Dated T) (t : ℤ) : Except DatedError Date :=
  if t < 0 ∨ t ≥ c.size then .error (.outOfRange "index 't' out of range")
  else .ok (c.dates.getD t.toNat ⟨0, 0, 0⟩)

/-- `Dated<T>::element_at(int)`: throws `std::out_of_range` when
`t < 0 or t >= size()`, else returns `elements[t]`. -/
def element_at [Inhabited T] (c : Dated T) (t : ℤ) : Except DatedError T :=
  if t < 0 ∨ t ≥ c.size then .error (.outOfRange "index 't' out of range")
  else .ok (c.elements.getD t.toNat default)

/-- `Dated<T>::contains`, which calls
`std::binary_search(first_date(), last_date(), d)` with `operator<`:
on the sorted ranges the claims assume, the search reports whether some
stored date compares equivalent to `d` (neither less nor greater). -/
def contains (c : Dated T) (d : Date) : Bool :=
  c.dates.any fun x => !Date.ltb x d && !Date.ltb d x

/-- `Dated<T>::index_of_date`: throws `std::invalid_argument` when the
date is invalid or not contained; otherwise a linear scan returns the
first position whose date `operator==` `d` (falling back to 0 when no
position matches, which cannot happen when `contains` holds). -/
def index_of_date (c : Dated T) (d : Date) : Except DatedError ℤ :=
  if d.valid = false then .error (.invalidArgument "Date 'd' not valid")
  else if c.contains d = false then .error (.invalidArgument "Date 'd' not present")
  else .ok (((c.dates.findIdx? fun x => Date.eqb x d).getD 0 : ℕ) : ℤ)

/-- `Dated<T>::element_at(const Date&)`: throws `std::invalid_argument`
(message `"Date 'd' not pressent"`, as spelt in the source) when
`contains` fails, else returns `elements[index_of_date(d)]` — so an
exception thrown by `index_of_date` propagates. -/
def element_at_date [Inhabited T] (c : Dated T) (d : Date) :
    Except DatedError T :=
  if c.contains d = false then .error (.invalidArgument "Date 'd' not pressent")
  else
    match c.index_of_date d with
    | .error e => .error e
    | .ok t => .ok (c.elements.getD t.toNat default)

end Dated

/-- Two dates compare equivalent under `operator<` exactly when they
are equal (the order is total). -/
lemma ltb_equiv_iff_eq (x d : Date) :
    (!Date.ltb x d && !Date.ltb d x) = true ↔ x = d := by
  simp only [Date.ltb, Bool.and_eq_true, Bool.not_eq_true',
    decide_eq_false_iff_not, Date.ext_iff]
  omega

/-- In this model `contains` agrees with plain list membership. -/
lemma contains_iff_mem {T : Type} (c : Dated T) (d : Date) :
    c.contains d = true ↔ d ∈ c.dates := by
  rw [Dated.contains, List.any_eq_true]
  constructor
  · rintro ⟨x, hx, hxd⟩
    rwa [(ltb_equiv_iff_eq x d).mp hxd] at hx
  · intro hd
    exact ⟨d, hd, (ltb_equiv_iff_eq d d).mpr rfl⟩

/-- `findIdx?` with the `operator==` predicate finds the first position
holding a present date. -/
lemma findIdx_eqb_spec (l : List Date) (d : Date) (h : d ∈ l) :
    ∃ i : ℕ, (l.findIdx? fun x => Date.eqb x d) = some i ∧
      l.getD i ⟨0, 0, 0⟩ = d ∧ ∀ j < i, l.getD j ⟨0, 0, 0⟩ ≠ d := by
  induction l with
  | nil => simp at h
  | cons a l ih =>
    by_cases ha : Date.eqb a d = true
    · have hae : a = d := by
        simpa [Date.eqb, Date.ext_iff] using ha
      exact ⟨0, by simp [List.findIdx?, ha], by simp [hae], by omega⟩
    · have hd : d ∈ l := by
        rcases List.mem_cons.mp h with he | hm
        · exact absurd (by simp [Date.eqb, he]) ha
        · exact hm
      obtain ⟨i, hfi, hget, hfirst⟩ := ih hd
      refine ⟨i + 1, ?_, by simpa using hget, ?_⟩
      · simp [List.findIdx?, ha, hfi]
      · intro j hj
        cases j with
        | zero =>
          simp only [List.getD_cons_zero]
          intro hc
          exact ha (by simp [Date.eqb, hc])
        | succ j =>
          simpa using hfirst j (by omega)

/-- C7 counterexample: a sorted, duplicate-free container holding the
(invalid) date April 31: `contains` is true, yet
`element_at(const Date&)` throws `InvalidArgument` — with message
`"Date 'd' not valid"` propagated from `index_of_date`, not the claimed
`"date not present"` — contradicting "throws exactly when `contains` is
false". -/
theorem element_at_date_counterexample :
    List.Pairwise (fun a b => Date.ltb a b = true) [(⟨31, 4, 0⟩ : Date)] ∧
    Dated.contains (⟨[⟨31, 4, 0⟩], [(42 : ℤ)]⟩ : Dated ℤ) ⟨31, 4, 0⟩ = true ∧
    Dated.element_at_date (⟨[⟨31, 4, 0⟩], [(42 : ℤ)]⟩ : Dated ℤ) ⟨31, 4, 0⟩ =
      .error (.invalidArgument "Date 'd' not valid") := by
  refine ⟨by simp, by decide, by rfl⟩

/-- C7 (amended): for a container whose dates are sorted strictly
ascending (hence duplicate-free) with elements parallel to dates:
`date_at`/`element_at(int)` throw `OutOfRange` exactly when the index is
negative or `≥ size()`; `contains` is membership;
`index_of_date` throws `InvalidArgument("Date 'd' not valid")` exactly
when the date is invalid and `InvalidArgument("Date 'd' not present")`
exactly when it is valid but absent, else returns the first matching
position; `element_at(const Date&)` throws
`InvalidArgument("Date 'd' not pressent")` exactly when `contains` is
false, *also* throws (`"Date 'd' not valid"`, propagated) when the date
is contained but invalid, and otherwise returns the payload at the
date's position. -/
theorem dated_accessors_characterization {T : Type} [Inhabited T]
    (c : Dated T) (t : ℤ) (d : Date)
    (hs : List.Pairwise (fun a b => Date.ltb a b = true) c.dates)
    (hlen : c.elements.length = c.dates.length) :
    (c.date_at t = .error (.outOfRange "index 't' out of range") ↔
      t < 0 ∨ t ≥ c.size) ∧
    (c.element_at t = .error (.outOfRange "index 't' out of range") ↔
      t < 0 ∨ t ≥ c.size) ∧
    (c.contains d = true ↔ d ∈ c.dates) ∧
    (c.index_of_date d = .error (.invalidArgument "Date 'd' not valid") ↔
      d.valid = false) ∧
    (c.index_of_date d = .error (.invalidArgument "Date 'd' not present") ↔
      (d.valid = true ∧ c.contains d = false)) ∧
    (c.element_at_date d = .error (.invalidArgument "Date 'd' not pressent") ↔
      c.contains d = false) ∧
    (c.contains d = true → d.valid = false →
      c.element_at_date d = .error (.invalidArgument "Date 'd' not valid")) ∧
    (d.valid = true → c.contains d = true →
      ∃ i : ℕ, c.index_of_date d = .ok (i : ℤ) ∧
        c.dates.getD i ⟨0, 0, 0⟩ = d ∧
        (∀ j < i, c.dates.getD j ⟨0, 0, 0⟩ ≠ d) ∧
        c.element_at_date d = .ok (c.elements.getD i default)) := by
  have hokidx : d.valid = true → c.contains d = true →
      ∃ i : ℕ, c.index_of_date d = .ok (i : ℤ) ∧
        c.dates.getD i ⟨0, 0, 0⟩ = d ∧
        ∀ j < i, c.dates.getD j ⟨0, 0, 0⟩ ≠ d := by
    intro hv hc
    obtain ⟨i, hfi, hget, hfirst⟩ :=
      findIdx_eqb_spec c.dates d ((contains_iff_mem c d).mp hc)
    refine ⟨i, ?_, hget, hfirst⟩
    rw [Dated.index_of_date, if_neg (by simp [hv]), if_neg (by simp [hc]), hfi]
    rfl
  refine ⟨?_, ?_, contains_iff_mem c d, ?_, ?_, ?_, ?_, ?_⟩
  · rw [Dated.date_at]
    split_ifs with h
    · exact iff_of_true rfl h
    · exact iff_of_false (by simp) h
  · rw [Dated.element_at]
    split_ifs with h
    · exact iff_of_true rfl h
    · exact iff_of_false (by simp) h
  · rw [Dated.index_of_date]
    split_ifs with h1 h2
    · exact iff_of_true rfl h1
    · exact iff_of_false (by simp) (by simp [h1])
    · refine iff_of_false ?_ (by simp [h1])
      simp
  · rw [Dated.index_of_date]
    split_ifs with h1 h2
    · refine iff_of_false ?_ (fun hc => by simp [h1] at hc)
      simp only [Except.error.injEq, DatedError.invalidArgument.injEq]
      decide
    · exact iff_of_true rfl ⟨by simpa using h1, h2⟩
    · refine iff_of_false (by simp) (fun hc => by simp [hc.2] at h2)
  · rw [Dated.element_at_date]
    split_ifs with h1
    · exact iff_of_true rfl h1
    · have hcon : c.contains d = true := by simpa using h1
      rcases hval : d.valid with _ | _
      · rw [Dated.index_of_date, if_pos (by simp [hval])]
        refine iff_of_false ?_ (by simp [hcon])
        simp only [Except.error.injEq, DatedError.invalidArgument.injEq]
        decide
      · obtain ⟨i, hoki, _, _⟩ := hokidx hval hcon
        rw [hoki]
        exact iff_of_false (by simp) (by simp [hcon])
  · intro hc hv
    rw [Dated.element_at_date, if_neg (by simp [hc]),
      Dated.index_of_date, if_pos (by simp [hv])]
  · intro hv hc
    obtain ⟨i, hoki, hget, hfirst⟩ := hokidx hv hc
    refine ⟨i, hoki, hget, hfirst, ?_⟩
    rw [Dated.element_at_date, if_neg (by simp [hc]), hoki]
    simp

/-- Witness for C7's amended theorem on a two-element sorted container:
index 5 is out of range, and June 15, 2020 is contained. -/
theorem dated_accessors_characterization_witness :
    Dated.date_at (⟨[⟨1, 1, 2020⟩, ⟨15, 6, 2020⟩], [(10 : ℤ), 20]⟩ : Dated ℤ) 5 =
      .error (.outOfRange "index 't' out of range") ∧
    Dated.contains (⟨[⟨1, 1, 2020⟩, ⟨15, 6, 2020⟩], [(10 : ℤ), 20]⟩ : Dated ℤ)
      ⟨15, 6, 2020⟩ = true :=
  ⟨((dated_accessors_characterization
      (⟨[⟨1, 1, 2020⟩, ⟨15, 6, 2020⟩], [(10 : ℤ), 20]⟩ : Dated ℤ) 5 ⟨15, 6, 2020⟩
      (by simp [Date.ltb]) (by simp)).1).mpr (by decide),
   ((dated_accessors_characterization
      (⟨[⟨1, 1, 2020⟩, ⟨15, 6, 2020⟩], [(10 : ℤ), 20]⟩ : Dated ℤ) 5 ⟨15, 6, 2020⟩
      (by simp [Date.ltb]) (by simp)).2.2.1).mpr (by decide)⟩
